import Mathlib

/-!
# Verification of the stpipe parameter-resolution and Step execution core

This file is a shallow embedding, in Lean 4, of the parts of the `stpipe`
repository (files `src/stpipe/step.py` and `src/stpipe/cmdline.py`) that the
specification's claims are about:

* the per-key configuration merge/precedence pipeline
  (`Step.build_config`, `cmdline.just_the_step_from_cmdline`);
* the `Step.run` execution lifecycle (pre/post hooks, skip semantics,
  the `process` arity-mismatch rewrap);
* the output path formatter (`Step._make_output_path`, `_get_suffix`);
* the parameter accessor/mutator (`Step.get_pars`, `Step.update_pars`);
* the nested-step configuration check in `Step.build_config`;
* the reserved-key check in `cmdline._build_arg_parser_from_spec`;
* the environment flag reader `get_disable_crds_steppars`.

Python exceptions are modelled as values of an `Exc` type carried in
`Except`; Python `None` for optional attributes is modelled with `Option`.
Functions of the repository that live in modules not shipped here
(`config_parser`, `format_template`) are modelled from the specification's
description and are marked as such in their doc comments.
-/

/-- The kinds of Python exception that appear in the embedded code paths. -/
inductive ExcKind where
  | typeError
  | valueError
  | notImplementedError
  | indexError
  | attributeError
  | osError
  | configError
  | schemaError
  deriving DecidableEq, Repr

/-- A raised Python exception: its class and its message. -/
structure Exc where
  kind : ExcKind
  msg : String
  deriving DecidableEq, Repr

/-! ### Python string utilities

The embedded code uses a handful of Python `str` operations.  They are
implemented here by structural recursion on the character list so that
concrete instances evaluate inside the kernel. -/

/-- Python `str.lower`. -/
def pyLower (s : String) : String :=
  String.mk (s.toList.map Char.toLower)

/-- Python `str.split(sep)` for a one-character separator (total, never
produces an empty list). -/
def splitOnCharList (c : Char) : List Char → List (List Char)
  | [] => [[]]
  | x :: xs =>
      let r := splitOnCharList c xs
      if x = c then [] :: r
      else match r with
        | [] => [[x]]
        | y :: ys => (x :: y) :: ys

/-- `splitOnCharList` on strings. -/
def pySplitOnChar (s : String) (c : Char) : List String :=
  (splitOnCharList c s.toList).map String.mk

/-- Python `str.strip()` (whitespace on both sides). -/
def pyStrip (s : String) : String :=
  String.mk
    (((s.toList.dropWhile Char.isWhitespace).reverse.dropWhile
      Char.isWhitespace).reverse)

/-! ## Per-key configuration precedence

`config_parser.merge_config` is not shipped under `src/`; per the spec
(§4.2) merging is recursive per nested section and "leaf values simply
overwrite; missing keys are additive".  For a single parameter key this is
`mergeLeaf` below.  `Step.build_config` (`step.py:1368-1439`) starts from
the remote (CRDS) fragment, merges the local config-file fragment over it,
then merges the keyword fragment over that.
`cmdline.just_the_step_from_cmdline` (`cmdline.py:313-335`) overrides the
config-file fragment with the command-line values, then merges that
combined fragment over the remote fragment.  Validation against the schema
(`from_config_section` → `config_parser.validate`) fills in the built-in
schema default for a key no source supplied. -/

/-- Modelled from the spec: one key of `config_parser.merge_config`
(module not under `src/`) — the source value overwrites the target value
when present, and a missing source key leaves the target value. -/
def mergeLeaf {V : Type} (target source : Option V) : Option V :=
  match source with
  | some v => some v
  | none => target

/-- One key of the configuration built by `Step.build_config`:
the config-file fragment is merged over the remote (CRDS) fragment, then
the keyword-argument fragment is merged over the result. -/
def buildConfigLeaf {V : Type} (remote file keyword : Option V) : Option V :=
  mergeLeaf (mergeLeaf remote file) keyword

/-- One key of the configuration built by
`cmdline.just_the_step_from_cmdline`: the command-line value is written
over the config-file fragment (`_override_config_from_args`), and the
combined fragment is merged over the remote (CRDS) fragment. -/
def cmdlineConfigLeaf {V : Type} (remote file cli : Option V) : Option V :=
  mergeLeaf remote (mergeLeaf file cli)

/-- One key of the full five-source pipeline: the command line is applied
last over the three-source configuration of `Step.build_config`, and the
schema default fills the key when no source supplied a value. -/
def finalParamLeaf {V : Type} (default : V) (remote file keyword cli : Option V) : V :=
  (mergeLeaf (buildConfigLeaf remote file keyword) cli).getD default

/-! ## The remote-parameter-lookup disable flag

`get_disable_crds_steppars` (`step.py:1476-1503`).  The process
environment is modelled as the optional value of the variable
`STPIPE_DISABLE_CRDS_STEPPARS`; `os.environ.get(var, "")` is
`(env.getD "")`. -/

/-- The values `get_disable_crds_steppars` treats as true. -/
def steppars_truths : List String := ["true", "True", "t", "yes", "y"]

/-- The `default` argument of `get_disable_crds_steppars`: Python allows
`None`, a `bool` or a `str` there (anything else raises `ValueError`). -/
inductive StepparsDefault where
  | noneD
  | boolD (b : Bool)
  | strD (s : String)
  | otherD
  deriving DecidableEq, Repr

/-- Embedding of `get_disable_crds_steppars` (`step.py:1476-1503`).
`env` is the value of `STPIPE_DISABLE_CRDS_STEPPARS` in the process
environment, or `none` when the variable is absent.  Note Python's
`if default:` treats `False` and `""` as absent. -/
def get_disable_crds_steppars (default : StepparsDefault) (env : Option String) :
    Except Exc Bool :=
  let isTruthy : StepparsDefault → Bool
    | .noneD => false
    | .boolD b => b
    | .strD s => s ≠ ""
    | .otherD => true
  if isTruthy default then
    match default with
    | .boolD b => .ok b
    | .strD s => .ok (steppars_truths.contains s)
    | _ => .error ⟨.valueError, "default must be string or boolean"⟩
  else
    .ok (steppars_truths.contains ((env.getD "")))

/-! ## The `Step.run` execution lifecycle

`Step.run` (`step.py:494-643`).  The argument values a step processes are
abstracted to a type `α`; hooks are functions from the current argument
list to an optional replacement value (a Python hook returning `None` is
`none`), and `process` is a function returning either a value or a raised
exception.  The observable side effects the claims are about — which
hooks ran, whether `process` ran, the log lines emitted by the skip
logic — are recorded in an event trace; the mutated attributes (`skip`,
`save_results`, `suffix`) are returned alongside the result, and they are
meaningful even when the run raises, as in Python. -/

/-- Python's `needle in hay` on strings. -/
def strContains (hay needle : String) : Bool :=
  decide (needle.toList <:+: hay.toList)

/-- The observable events of one `Step.run` call. -/
inductive Event where
  | logParams
  | setPrimaryInput
  | preHookRun (i : Nat)
  | forcedSkipFalse
  | skippedLog
  | setSkippedMeta
  | prefetchCall
  | processCall
  | postHookRun (i : Nat)
  | finalizeResult
  | saveResult
  | stepDone
  deriving DecidableEq, Repr

/-- The attributes of a `Step` that `Step.run` reads or writes. -/
structure RunStep (α : Type) where
  name : String
  parentIsNone : Bool
  skip : Bool
  output_file : Option String
  suffix : Option String
  save_results : Bool
  class_alias : Option String
  prefetch_references : Bool
  pre_hooks : List (List α → Option α)
  post_hooks : List (α → Option α)
  process : List α → Except Exc α

/-- What one `Step.run` call leaves behind: the returned result or the
raised exception, the final values of the mutated attributes, and the
event trace. -/
structure RunResult (α : Type) where
  result : Except Exc α
  skipFinal : Bool
  saveResultsFinal : Bool
  suffixFinal : Option String
  trace : List Event

/-- The pre-hook loop of `Step.run` (`step.py:536-541`): each hook
consumes the current argument tuple, and a non-`None` hook result
replaces the argument tuple for subsequent hooks.  `i` numbers the hooks
in declaration order for the trace. -/
def runPreHooks {α : Type} (i : Nat) (hooks : List (List α → Option α))
    (args : List α) : List α × List Event :=
  match hooks with
  | [] => (args, [])
  | h :: hs =>
      let args' := match h args with
        | some r => [r]
        | none => args
      let rest := runPreHooks (i + 1) hs args'
      (rest.1, Event.preHookRun i :: rest.2)

/-- The post-hook loop of `Step.run` (`step.py:589-592`): each hook
consumes the current result and a non-`None` hook result replaces it. -/
def runPostHooks {α : Type} (i : Nat) (hooks : List (α → Option α))
    (result : α) : α × List Event :=
  match hooks with
  | [] => (result, [])
  | h :: hs =>
      let r' := match h result with
        | some r => r
        | none => result
      let rest := runPostHooks (i + 1) hs r'
      (rest.1, Event.postHookRun i :: rest.2)

/-- The base `Step.process` (`step.py:690-696`): always raises
`NotImplementedError`. -/
def processBase {α β : Type} : List α → Except Exc β :=
  fun _ => .error ⟨.notImplementedError, "Steps have to override process()."⟩

/-- Embedding of `Step.run` (`step.py:494-643`).  Logging capture,
`gc.collect()` and the reference-file bookkeeping are outside the claims
and are not modelled; everything else follows the source order: primary
input, `save_results`/`suffix` defaulting, pre-hooks, the standalone
skip reset, the skip branch (which indexes the first transformed
argument), the `process` call with the `TypeError` arity rewrap, the
post-hooks, finalization, and conditional saving. -/
def runStep {α : Type} (s : RunStep α) (args : List α) : RunResult α :=
  let ev0 : List Event := if s.parentIsNone then [.logParams] else []
  let ev1 : List Event :=
    ev0 ++ (if args.length ≠ 0 then [Event.setPrimaryInput] else [])
  let saveResults := if s.output_file.isSome then true else s.save_results
  let suffix := if s.suffix.isNone then some (pyLower s.name) else s.suffix
  let pre := runPreHooks 0 s.pre_hooks args
  let hookArgs := pre.1
  let ev2 := ev1 ++ pre.2
  let forced := s.parentIsNone && s.skip
  let skip := if forced then false else s.skip
  let ev3 := ev2 ++ (if forced then [Event.forcedSkipFalse] else [])
  if skip then
    match hookArgs.head? with
    | none =>
        { result := .error ⟨.indexError, "tuple index out of range"⟩
          skipFinal := skip, saveResultsFinal := saveResults
          suffixFinal := suffix
          trace := ev3 ++ [Event.skippedLog] }
    | some a =>
        let ev4 := ev3 ++ [Event.skippedLog]
          ++ (if s.class_alias.isSome then [Event.setSkippedMeta] else [])
        let post := runPostHooks 0 s.post_hooks a
        { result := .ok post.1
          skipFinal := skip, saveResultsFinal := saveResults
          suffixFinal := suffix
          trace := ev4 ++ post.2 ++ [Event.finalizeResult] }
  else
    let evPf : List Event :=
      if s.prefetch_references then [Event.prefetchCall] else []
    match s.process hookArgs with
    | .error e =>
        let e' :=
          if e.kind = ExcKind.typeError
              ∧ strContains e.msg "process() takes exactly" then
            (⟨ExcKind.typeError, "Incorrect number of arguments to step"⟩ : Exc)
          else e
        { result := .error e'
          skipFinal := skip, saveResultsFinal := saveResults
          suffixFinal := suffix
          trace := ev3 ++ evPf ++ [Event.processCall] }
    | .ok r =>
        let post := runPostHooks 0 s.post_hooks r
        let evSave : List Event := if saveResults then [Event.saveResult] else []
        { result := .ok post.1
          skipFinal := skip, saveResultsFinal := saveResults
          suffixFinal := suffix
          trace := ev3 ++ evPf ++ [Event.processCall] ++ post.2
            ++ [Event.finalizeResult] ++ evSave ++ [Event.stepDone] }

/-- Recognises the pre-hook events of a trace. -/
def isPreHookEvent : Event → Bool
  | .preHookRun _ => true
  | _ => false

/-! ## The output path formatter

`Step._make_output_path` (`step.py:1104-1197`), `_get_suffix`
(`step.py:1447-1473`), `Step.remove_suffix` (`step.py:661-679`),
`Step.default_output_file` (`step.py:773-780`) and `Step.search_attr`
(`step.py:786-822`).  A step's attribute chain is the step's own
attribute record followed by its ancestors' records, root last. -/

/-- The attributes of a step that the output path formatter reads
(`_input_filename` is written by `set_primary_input`). -/
structure OStepAttrs where
  name : String
  output_file : Option String
  output_ext : Option String
  output_dir : Option String
  suffix : Option String
  search_output_file : Bool
  input_filename : Option String
  deriving Repr

/-- `Step.search_attr` (`step.py:786-822`), default `parent_first`
behaviour: the first non-`None` value of the attribute walking from the
step up its parent chain. -/
def search_attr {β : Type} (f : OStepAttrs → Option β) :
    List OStepAttrs → Option β
  | [] => none
  | s :: parents =>
      match f s with
      | some v => some v
      | none => search_attr f parents

/-- `os.path.split(path)[1]`: the part after the last `/`. -/
def pySplitBasename (path : String) : String :=
  String.mk (path.toList.reverse.takeWhile (fun c => c ≠ '/')).reverse

/-- `os.path.splitext` on a basename: split at the last dot, except that
a name whose characters before that dot are all dots keeps its dots
(CPython `genericpath._splitext` with no directory separator). -/
def pySplitExt (name : String) : String × String :=
  let cs := name.toList
  let dotIdxs := (List.range cs.length).filter (fun i => cs.getD i ' ' = '.')
  match dotIdxs.getLast? with
  | none => (name, "")
  | some sep =>
      if (List.range sep).all (fun i => cs.getD i ' ' = '.') then (name, "")
      else (String.mk (cs.take sep), String.mk (cs.drop sep))

/-- `os.path.join` for two components. -/
def pyJoin (dir name : String) : String :=
  if name.toList.take 1 = ['/'] then name
  else if dir = "" ∨ dir.toList.getLast? = some '/' then dir ++ name
  else dir ++ "/" ++ name

/-- `Step.default_output_file` (`step.py:773-780`): the explicit input
file, else the primary input filename searched up the chain, else
`f"step_{self.name}{self.output_ext}"` (Python renders a `None`
`output_ext` as the string `"None"`). -/
def default_output_file (self : OStepAttrs) (parents : List OStepAttrs)
    (input_file : Option String) : String :=
  match input_file with
  | some f => f
  | none =>
      match search_attr (fun a => a.input_filename) (self :: parents) with
      | some f => f
      | none =>
          "step_" ++ self.name
            ++ (match self.output_ext with | some e => e | none => "None")

/-- The `suffix` argument of `_make_output_path`: Python `None`
(unspecified), `False` (the explicit suffix-suppression sentinel), or a
string. -/
inductive SuffixArg where
  | unset
  | noSuffix
  | suf (s : String)
  deriving DecidableEq, Repr

/-- `Step.remove_suffix` (`step.py:661-679`): the base implementation
removes nothing and reports `_` as the separator. -/
def remove_suffix (name : String) : String × String :=
  (name, "_")

/-- `_get_suffix` (`step.py:1447-1473`) with a step supplied (as in
`_make_output_path`): an explicit suffix wins; an unspecified suffix is
searched up the chain, then falls back to `default_suffix`, then to the
lower-cased step name. -/
def get_suffix (suffix : SuffixArg) (self : OStepAttrs)
    (parents : List OStepAttrs) (default_suffix : Option String) : SuffixArg :=
  let s1 := match suffix with
    | .unset =>
        match search_attr (fun a => a.suffix) (self :: parents) with
        | some v => SuffixArg.suf v
        | none => SuffixArg.unset
    | x => x
  let s2 := match s1 with
    | .unset =>
        match default_suffix with
        | some v => SuffixArg.suf v
        | none => SuffixArg.unset
    | x => x
  match s2 with
  | .unset => SuffixArg.suf (pyLower self.name)
  | x => x

/-- Modelled from the spec: `FormatTemplate` lives in
`stpipe/format_template.py`, which is not under `src/`.  Per the spec
(§4.3) the extra components are "interpolated ... immediately after the
stem, joined with the same separator": `formatter("", **components)`
yields the separator-prefixed component values in order. -/
def formatComponents (separator : String)
    (components : List (String × String)) : String :=
  String.join (components.map (fun c => separator ++ c.2))

/-- Embedding of `Step._make_output_path` (`step.py:1104-1197`).
`expand` stands for the Python utility
`os.path.expandvars(os.path.expanduser(·))` applied to `output_dir`
(an external collaborator; the spec treats path utilities as
already-solved).  The template instantiation
`"{basename}{components}{suffix_sep}{suffix}.{ext}"` (with
`remove_unused=True` and every field supplied) is modelled from the spec
as plain concatenation, the `components` field being the joined
component string. -/
def make_output_path (expand : String → String) (self : OStepAttrs)
    (parents : List OStepAttrs) (basepath : Option String)
    (ext : Option String) (suffix : SuffixArg)
    (components : List (String × String)) : Except Exc String :=
  let separator := "_"
  let basepath1 : Option String :=
    match basepath with
    | none =>
        if self.search_output_file then
          search_attr (fun a => a.output_file) (self :: parents)
        else none
    | some b => some b
  let basepath2 : String :=
    match basepath1 with
    | none => default_output_file self parents none
    | some b => b
  let split0 := pySplitExt (pySplitBasename basepath2)
  let basename0 := split0.1
  let basepath_ext := split0.2
  let ext1 : Option String :=
    match ext with
    | none => self.output_ext
    | some e => some e
  let ext2 : Option String :=
    match ext1 with
    | none => if basepath_ext.length ≠ 0 then some basepath_ext else none
    | some e => some e
  match ext2 with
  | none =>
      .error ⟨.attributeError, "'NoneType' object has no attribute 'startswith'"⟩
  | some extv0 =>
      let extv := if extv0.toList.take 1 = ['.'] then
          String.mk (extv0.toList.drop 1)
        else extv0
      let componentStr :=
        if components.length ≠ 0 then formatComponents separator components
        else ""
      let outDir :=
        expand (match search_attr (fun a => a.output_dir) (self :: parents) with
          | some d => d
          | none => "")
      match get_suffix suffix self parents none with
      | .noSuffix =>
          .ok (pyJoin outDir (basename0 ++ componentStr ++ "." ++ extv))
      | .suf s =>
          let rs := remove_suffix basename0
          .ok (pyJoin outDir (rs.1 ++ componentStr ++ rs.2 ++ s ++ "." ++ extv))
      | .unset =>
          .ok (pyJoin outDir (basename0 ++ componentStr ++ separator ++ "." ++ extv))

/-! ## The parameter accessor and mutator

`Step.get_pars` (`step.py:1279-1316`) and `Step.update_pars`
(`step.py:1336-1366`).  Parameter values are modelled by `PVal`; the
schema of a step is a list of (key, type tag) pairs and the instance
attributes a partial map from keys to values.  The schema validation
(`config_parser.config_from_dict`, module not under `src/`) is modelled
from the spec as per-leaf type coercion, and the `"steps"` recursion into
child steps (populated by `Pipeline.get_pars`, also not under `src/`) as
an optional child list. -/

/-- A parameter value. -/
inductive PVal where
  | vNone
  | vBool (b : Bool)
  | vStr (s : String)
  | vInt (n : Int)
  | vList (xs : List String)
  deriving DecidableEq, Repr

/-- A schema leaf's type tag. -/
inductive SpecType where
  | tBool
  | tStr
  | tInt
  | tList
  deriving DecidableEq, Repr

/-- Modelled from the spec: the per-leaf coercion performed by
`config_parser.config_from_dict` (module not under `src/`; spec §4.2:
"type-coerces every leaf per schema").  `None` is accepted anywhere (the
step schema declares `default=None` leaves), strings are parsed into the
leaf's declared type, and ill-typed values fail validation. -/
def coerceLeaf : SpecType → PVal → Option PVal
  | _, .vNone => some .vNone
  | .tBool, .vBool b => some (.vBool b)
  | .tBool, .vStr s =>
      if s = "true" ∨ s = "True" ∨ s = "yes" ∨ s = "on" ∨ s = "1" then
        some (.vBool true)
      else if s = "false" ∨ s = "False" ∨ s = "no" ∨ s = "off" ∨ s = "0" then
        some (.vBool false)
      else none
  | .tBool, _ => none
  | .tStr, .vStr s => some (.vStr s)
  | .tStr, _ => none
  | .tInt, .vInt n => some (.vInt n)
  | .tInt, .vStr s => (s.toInt?).map PVal.vInt
  | .tInt, _ => none
  | .tList, .vList xs => some (.vList xs)
  | .tList, .vStr s => some (.vList (pySplitOnChar s ','))
  | .tList, _ => none

/-- A step as the parameter accessor sees it: its merged schema, its
instance attributes, and — when the step is a pipeline — its named child
steps (`none` for a plain step, which has no `"steps"` parameter). -/
inductive ParStep where
  | mk (spec : List (String × SpecType)) (attrs : String → Option PVal)
      (children : Option (List (String × ParStep)))

/-- The parameter mapping `get_pars` returns: leaf values plus, for a
pipeline, the `"steps"` sub-mapping. -/
inductive Pars where
  | mk (leaves : List (String × PVal)) (steps : Option (List (String × Pars)))

/-- The leaves of `Pars`. -/
def Pars.leaves : Pars → List (String × PVal)
  | .mk ls _ => ls

/-- The `"steps"` sub-mappings of `Pars`. -/
def Pars.steps : Pars → Option (List (String × Pars))
  | .mk _ st => st

/-- The leaf-reading loop of `Step.get_pars` (`step.py:1302-1307`): for
every schema key the step has an attribute for, read it and coerce it
through the schema; a validation failure raises (`none` here), a missing
attribute is skipped (`allow_missing=True`). -/
def getParsLeaves (attrs : String → Option PVal) :
    List (String × SpecType) → Option (List (String × PVal))
  | [] => some []
  | (k, t) :: rest =>
      match attrs k with
      | none => getParsLeaves attrs rest
      | some v =>
          match coerceLeaf t v with
          | none => none
          | some v' =>
              match getParsLeaves attrs rest with
              | none => none
              | some ls => some ((k, v') :: ls)

mutual

/-- Embedding of `Step.get_pars` (`step.py:1279-1316`), together with the
`"steps"` sub-mapping that `Pipeline.get_pars` (not under `src/`;
modelled from the spec §4.5) adds for each child step. -/
def get_pars : ParStep → Option Pars
  | .mk spec attrs children =>
      match getParsLeaves attrs spec with
      | none => none
      | some leaves =>
          match children with
          | none => some (Pars.mk leaves none)
          | some cs =>
              match get_pars_children cs with
              | none => none
              | some cps => some (Pars.mk leaves (some cps))

/-- `get_pars` of every named child, in order. -/
def get_pars_children : List (String × ParStep) → Option (List (String × Pars))
  | [] => some []
  | (n, c) :: rest =>
      match get_pars c with
      | none => none
      | some p =>
          match get_pars_children rest with
          | none => none
          | some ps => some ((n, p) :: ps)

end

/-- The key set of `get_pars` output — `existing` in `Step.update_pars`
(`step.py:1355`): the schema keys the instance has attributes for, plus
`"steps"` when the step is a pipeline. -/
def parsKeys : ParStep → List String
  | .mk spec attrs children =>
      (spec.filter (fun kv => (attrs kv.1).isSome)).map (fun kv => kv.1)
        ++ (match children with | some _ => ["steps"] | none => [])

/-- The `setattr` loop of `Step.update_pars` (`step.py:1356-1366`)
restricted to leaf parameters: each parameter whose key is in `existing`
and is not `"steps"` is assigned in order; other keys are ignored. -/
def applyLeaves (existing : List String) (attrs : String → Option PVal) :
    List (String × PVal) → (String → Option PVal)
  | [] => attrs
  | (k, v) :: rest =>
      let attrs' := if k ∈ existing ∧ k ≠ "steps" then
          (fun q => if q = k then some v else attrs q)
        else attrs
      applyLeaves existing attrs' rest

mutual

/-- Embedding of `Step.update_pars` (`step.py:1336-1366`): leaf keys
present in `existing` are assigned; the `"steps"` value, when present in
`existing`, is applied recursively to the named child steps. -/
def update_pars : ParStep → Pars → ParStep
  | .mk spec attrs children, .mk leaves steps? =>
      let existing := parsKeys (.mk spec attrs children)
      let attrs' := applyLeaves existing attrs leaves
      let children' :=
        match children, steps? with
        | some cs, some sp => some (update_children cs sp)
        | c, _ => c
      .mk spec attrs' children'

/-- The recursion of `update_pars` into the `"steps"` mapping: the source
looks each named sub-mapping up with `getattr(self, step_name)` and
updates that child in place; with distinct child names this is the map
below. -/
def update_children : List (String × ParStep) → List (String × Pars) →
    List (String × ParStep)
  | [], _ => []
  | (n, c) :: rest, sp =>
      (match List.lookup n sp with
        | some p => (n, update_pars c p)
        | none => (n, c)) :: update_children rest sp

end

/-- Well-formedness of a step for the parameter round trip: schema keys
are distinct, `"steps"` is not a schema leaf key (it is the reserved
pipeline key, spec §4.5), child names are distinct, and children are
recursively well-formed. -/
inductive ParStepWF : ParStep → Prop where
  | plain : ∀ spec attrs,
      (spec.map (fun kv : String × SpecType => kv.1)).Nodup →
      "steps" ∉ spec.map (fun kv : String × SpecType => kv.1) →
      ParStepWF (.mk spec attrs none)
  | pipeline : ∀ spec attrs cs,
      (spec.map (fun kv : String × SpecType => kv.1)).Nodup →
      "steps" ∉ spec.map (fun kv : String × SpecType => kv.1) →
      (cs.map (fun c : String × ParStep => c.1)).Nodup →
      (∀ c ∈ cs, ParStepWF c.2) →
      ParStepWF (.mk spec attrs (some cs))

/-! ## Nested step configuration in `Step.build_config`

`Step.build_config` (`step.py:1368-1439`).  Configuration files are
modelled flat (a `name` entry, a `class` entry, leaves), which is all the
nested-`steps` loop reads; the filesystem is a partial map from paths to
loaded files (`config_parser.load_config_file` raising on a missing
file). -/

/-- A configuration file as the `steps` loop of `build_config` reads it. -/
structure FileCfg where
  name : Option String
  cls : Option String
  leaves : List (String × String)
  deriving DecidableEq, Repr

/-- One `steps.<name>` keyword block: an optional `config_file` entry
plus inline parameter overrides. -/
structure StepPars where
  config_file : Option String
  leaves : List (String × String)
  deriving DecidableEq, Repr

/-- Python `dict.update`: existing keys keep their position and take the
new value, new keys are appended in update order. -/
def dictUpdate (base upds : List (String × String)) : List (String × String) :=
  base.map (fun kv => match List.lookup kv.1 upds with
    | some v => (kv.1, v)
    | none => kv)
    ++ upds.filter (fun kv => (List.lookup kv.1 base).isNone)

/-- `os.path.dirname` (for relative paths: everything before the last
`/`, or `""` when there is none). -/
def pyDirname (p : String) : String :=
  let cs := p.toList
  if cs.contains '/' then
    String.mk ((cs.reverse.dropWhile (fun c => c ≠ '/')).drop 1).reverse
  else ""

/-- The `steps` loop of `Step.build_config` (`step.py:1411-1430`): for
each block carrying a `config_file`, load it relative to the main config
file's directory, reject a `name` entry that differs from the block's
key (a plain `ValueError` in the source), drop `name` and `class`, and
overlay the inline parameters. -/
def build_config_steps (fs : String → Option FileCfg) (config_dir : String) :
    List (String × StepPars) → Except Exc (List (String × StepPars))
  | [] => .ok []
  | (step, pars) :: rest =>
      match pars.config_file with
      | some cf =>
          let path := pyJoin config_dir cf
          match fs path with
          | none => .error ⟨.osError, "Config file not found: " ++ path⟩
          | some cfgd =>
              let keep : Except Exc (List (String × StepPars)) :=
                match build_config_steps fs config_dir rest with
                | .error e => .error e
                | .ok restR =>
                    .ok ((step,
                      ⟨pars.config_file, dictUpdate cfgd.leaves pars.leaves⟩)
                      :: restR)
              match cfgd.name with
              | some n =>
                  if n ≠ step then
                    .error ⟨.valueError,
                      "Step name from configuration file '" ++ path
                        ++ "' does not match step name in the 'steps' argument."⟩
                  else keep
              | none => keep
      | none =>
          match build_config_steps fs config_dir rest with
          | .error e => .error e
          | .ok restR => .ok ((step, pars) :: restR)

/-- The keyword arguments handed to `Step.build_config`: an optional
`config_file`, the nested `steps` blocks, and the remaining inline
parameters. -/
structure BuildKwargs where
  config_file : Option String
  steps : List (String × StepPars)
  leaves : List (String × String)

/-- The configuration `Step.build_config` returns (top-level leaves and
the per-step blocks). -/
structure BuiltConfig where
  leaves : List (String × String)
  steps : List (String × StepPars)
  deriving DecidableEq, Repr

/-- Embedding of `Step.build_config` (`step.py:1368-1439`): start from
the remote (CRDS) fragment, merge the local config file over it, process
the nested `steps` blocks, and merge the remaining keyword leaves last. -/
def build_config (fs : String → Option FileCfg)
    (remote : List (String × String)) (kwargs : BuildKwargs) :
    Except Exc BuiltConfig :=
  match kwargs.config_file with
  | some cf =>
      match fs cf with
      | none => .error ⟨.osError, "Config file not found: " ++ cf⟩
      | some fileCfg =>
          let config1 := dictUpdate remote fileCfg.leaves
          match build_config_steps fs (pyDirname cf) kwargs.steps with
          | .error e => .error e
          | .ok steps => .ok ⟨dictUpdate config1 kwargs.leaves, steps⟩
  | none =>
      match build_config_steps fs "" kwargs.steps with
      | .error e => .error e
      | .ok steps => .ok ⟨dictUpdate remote kwargs.leaves, steps⟩

/-- A constructed step: `Step.call` (`step.py:698-763`) builds the
configuration first and only then constructs the instance through
`from_config_section`. -/
structure StepInstance where
  config : BuiltConfig

/-- The construction part of `Step.call`: a configuration-building error
propagates before any `StepInstance` exists. -/
def stepCallConstruct (fs : String → Option FileCfg)
    (remote : List (String × String)) (kwargs : BuildKwargs) :
    Except Exc StepInstance :=
  match build_config fs remote kwargs with
  | .error e => .error e
  | .ok cfg => .ok ⟨cfg⟩

/-! ## The reserved-key check of the command-line builder

`cmdline._build_arg_parser_from_spec` (`cmdline.py:64-125`) and
`built_in_configuration_parameters` (`cmdline.py:14-18`).  A configspec
is a tree of sections and leaves; each leaf carries its configspec value
string (e.g. `"boolean(default=False)"`) and its inline comment. -/

/-- A node of a step's configspec. -/
inductive SpecNode where
  | leaf (val : String) (comment : String)
  | sub (entries : List (String × SpecNode))

/-- `cmdline.built_in_configuration_parameters` (`cmdline.py:14-18`). -/
def built_in_configuration_parameters : List String :=
  ["debug", "logcfg", "verbose"]

/-- Python `str.rstrip` with a single character. -/
def pyRstrip (s : String) (c : Char) : String :=
  String.mk (s.toList.reverse.dropWhile (fun x => x = c)).reverse

/-- Python `str.lstrip(chars)`: strip any leading characters of the
set. -/
def pyLstripSet (s chars : String) : String :=
  String.mk (s.toList.dropWhile (fun x => chars.toList.contains x))

/-- Python `".".join`. -/
def dotJoin : List String → String
  | [] => ""
  | [x] => x
  | x :: xs => x ++ "." ++ dotJoin xs

/-- Embedding of `build_from_spec` inside
`cmdline._build_arg_parser_from_spec` (`cmdline.py:89-117`): walk the
configspec in order, recursing into sections with the key appended to
the dotted path; for a leaf, compute the help string (whose
`val.split("(")[1]` raises `IndexError` on a malformed value), then
reject a dotted argument name that is one of the reserved built-in keys
with a plain `ValueError`, else record the `--`-argument and its help
string. -/
def build_from_spec :
    List (String × SpecNode) → List String → Except Exc (List (String × String))
  | [], _ => .ok []
  | (key, .sub entries) :: rest, parts =>
      match build_from_spec entries (parts ++ [key]) with
      | .error e => .error e
      | .ok a =>
          match build_from_spec rest parts with
          | .error e => .error e
          | .ok b => .ok (a ++ b)
  | (key, .leaf val comment) :: rest, parts =>
      let comment1 := pyStrip (pyLstripSet comment "#")
      match (pySplitOnChar val '(').get? 1 with
      | none => .error ⟨.indexError, "list index out of range"⟩
      | some part1 =>
          let default_value_string := pyStrip (pyRstrip part1 ')')
          let help_string :=
            if pyLstripSet default_value_string "default="
                ∈ (["None", "''", "\"\""] : List String) then
              comment1
            else
              comment1 ++ " [" ++ default_value_string ++ "]"
          let argument := "--" ++ dotJoin (parts ++ [key])
          if String.mk (argument.toList.drop 2)
              ∈ built_in_configuration_parameters then
            .error ⟨.valueError,
              "The Step's spec is trying to override a built-in parameter '"
                ++ argument ++ "'"⟩
          else
            match build_from_spec rest parts with
            | .error e => .error e
            | .ok b => .ok ((argument, help_string) :: b)

/-- Well-formedness of a configspec node: every leaf value contains a
`(` (as every configspec type declaration does), so that the help-string
computation cannot raise. -/
inductive SpecNodeWF : SpecNode → Prop where
  | leaf : ∀ val comment, 2 ≤ (pySplitOnChar val '(').length →
      SpecNodeWF (.leaf val comment)
  | sub : ∀ entries, (∀ e ∈ entries, SpecNodeWF e.2) →
      SpecNodeWF (.sub entries)

/-! ## Concrete instances used by the witnesses and counterexamples -/

/-- A child step (non-`None` parent) with `skip=True` and one pre-hook. -/
def sampleHookStep : RunStep Nat :=
  { name := "child", parentIsNone := false, skip := true, output_file := none,
    suffix := none, save_results := false, class_alias := none,
    prefetch_references := true,
    pre_hooks := [fun xs => some (xs.headD 0 + 1)],
    post_hooks := [fun x => some (x * 2)],
    process := processBase }

/-- An outermost step (no parent) configured with `skip=True`. -/
def sampleStandaloneStep : RunStep Nat :=
  { name := "top", parentIsNone := true, skip := true, output_file := none,
    suffix := none, save_results := false, class_alias := none,
    prefetch_references := true, pre_hooks := [], post_hooks := [],
    process := fun _ => .ok 7 }

/-- A step whose `process` raises the arity-mismatch `TypeError`. -/
def sampleArityStep : RunStep Nat :=
  { name := "arity", parentIsNone := false, skip := false, output_file := none,
    suffix := none, save_results := false, class_alias := none,
    prefetch_references := true, pre_hooks := [], post_hooks := [],
    process := fun _ =>
      .error ⟨.typeError, "process() takes exactly 1 argument (2 given)"⟩ }

/-- A skipped child step with no pre-hooks, run with no arguments. -/
def sampleEmptySkipStep : RunStep Nat :=
  { name := "noargs", parentIsNone := false, skip := true, output_file := none,
    suffix := none, save_results := false, class_alias := none,
    prefetch_references := true, pre_hooks := [], post_hooks := [],
    process := processBase }

/-- A step attribute record with no output attributes set. -/
def sampleOutAttrs : OStepAttrs :=
  { name := "MyStep", output_file := none, output_ext := none,
    output_dir := none, suffix := none, search_output_file := true,
    input_filename := none }

/-- A plain child step for the parameter round trip. -/
def sampleChildPars : ParStep :=
  ParStep.mk [("skip", .tBool), ("suffix", .tStr)]
    (fun k => if k = "skip" then some (.vStr "true")
      else if k = "suffix" then some .vNone else none)
    none

/-- A pipeline holding one child step for the parameter round trip. -/
def sampleRootPars : ParStep :=
  ParStep.mk [("save_results", .tBool), ("output_dir", .tStr)]
    (fun k => if k = "save_results" then some (.vBool false) else none)
    (some [("child", sampleChildPars)])

/-- The filesystem of the nested-step mismatch scenario: the file
`substep.cfg` declares `name = "other"`. -/
def mismatchFs : String → Option FileCfg :=
  fun p => if p = "substep.cfg" then
      some ⟨some "other", none, [("par1", "1")]⟩
    else none

/-- Keyword arguments whose `steps.substep` block points at
`substep.cfg`. -/
def mismatchKwargs : BuildKwargs :=
  ⟨none, [("substep", ⟨some "substep.cfg", []⟩)], []⟩

/-- A configspec redeclaring the reserved built-in key `debug` as a
top-level leaf. -/
def debugSpecEntries : List (String × SpecNode) :=
  [("debug", .leaf "boolean(default=False)" "# debug flag")]

/-!
# Theorems

Helper lemmas first, then one theorem per claim (with its witness or
counterexample where required).
-/

/-- C1: for every presence combination of the five sources, the final
value for a key is the CLI value if present, else the keyword value, else
the config-file value, else the remote-service value, else the schema
default; both code paths (`Step.build_config` with no CLI source, and
`just_the_step_from_cmdline` with no keyword source) are instances of
that pipeline. -/
theorem finalParamLeaf_precedence {V : Type} (default : V)
    (remote file keyword cli : Option V) :
    finalParamLeaf default remote file keyword cli
      = (cli <|> keyword <|> file <|> remote).getD default
    ∧ (cmdlineConfigLeaf remote file cli).getD default
      = finalParamLeaf default remote file none cli
    ∧ (buildConfigLeaf remote file keyword).getD default
      = finalParamLeaf default remote file keyword none := by
  refine ⟨?_, ?_, ?_⟩ <;>
    cases cli <;> cases keyword <;> cases file <;> cases remote <;> rfl

/-- C9: with no explicit default, the flag read from the environment is
`true` exactly when the variable is set to one of `"true"`, `"True"`,
`"t"`, `"yes"`, `"y"`; any other value, or an absent variable, gives
`false`. -/
theorem get_disable_crds_steppars_env (env : Option String) :
    get_disable_crds_steppars .noneD env = .ok true
      ↔ env = some "true" ∨ env = some "True" ∨ env = some "t"
          ∨ env = some "yes" ∨ env = some "y" := by
  cases env with
  | none =>
    have h0 : get_disable_crds_steppars .noneD none = .ok false := rfl
    rw [h0]
    constructor
    · intro h
      exact absurd (Except.ok.inj h) (by decide)
    · rintro (h | h | h | h | h) <;> exact Option.noConfusion h
  | some v =>
    have h0 : get_disable_crds_steppars .noneD (some v)
        = .ok (steppars_truths.contains v) := rfl
    rw [h0]
    constructor
    · intro h
      have h2 : v ∈ steppars_truths := List.elem_iff.mp (Except.ok.inj h)
      simp only [steppars_truths, List.mem_cons, List.not_mem_nil, or_false] at h2
      rcases h2 with h2 | h2 | h2 | h2 | h2 <;> simp [h2]
    · rintro (h | h | h | h | h) <;> (injection h with h; subst h) <;> rfl

/-- C3: for a step with no `output_ext` and no `output_dir` anywhere on
its chain, basepath `"abc.fits"` with suffix `"cal"` and no explicit
extension gives `"abc_cal.fits"`; the suffix-suppression sentinel
(`suffix=False`) gives `"abc.fits"`, and with components only
`"abc_1.fits"`; components `{"idx": "1"}` with suffix `"cal"` are
inserted between the stem and the suffix, giving `"abc_1_cal.fits"`. -/
theorem make_output_path_scenarios (expand : String → String)
    (self : OStepAttrs) (parents : List OStepAttrs)
    (hdir : search_attr (fun a => a.output_dir) (self :: parents) = none)
    (hext : self.output_ext = none)
    (hexp : expand "" = "") :
    make_output_path expand self parents (some "abc.fits") none
        (.suf "cal") [] = .ok "abc_cal.fits"
    ∧ make_output_path expand self parents (some "abc.fits") none
        .noSuffix [] = .ok "abc.fits"
    ∧ make_output_path expand self parents (some "abc.fits") none
        .noSuffix [("idx", "1")] = .ok "abc_1.fits"
    ∧ make_output_path expand self parents (some "abc.fits") none
        (.suf "cal") [("idx", "1")] = .ok "abc_1_cal.fits" := by
  refine ⟨?_, ?_, ?_, ?_⟩ <;>
    · simp only [make_output_path, hext, hdir, hexp]
      rfl

/-- Witness for C3 at a concrete step record. -/
theorem make_output_path_scenarios_witness :
    search_attr (fun a => a.output_dir) (sampleOutAttrs :: []) = none
    ∧ sampleOutAttrs.output_ext = none
    ∧ id "" = ""
    ∧ (make_output_path id sampleOutAttrs [] (some "abc.fits") none
        (.suf "cal") [] = .ok "abc_cal.fits"
      ∧ make_output_path id sampleOutAttrs [] (some "abc.fits") none
        .noSuffix [] = .ok "abc.fits"
      ∧ make_output_path id sampleOutAttrs [] (some "abc.fits") none
        .noSuffix [("idx", "1")] = .ok "abc_1.fits"
      ∧ make_output_path id sampleOutAttrs [] (some "abc.fits") none
        (.suf "cal") [("idx", "1")] = .ok "abc_1_cal.fits") :=
  ⟨rfl, rfl, rfl, make_output_path_scenarios id sampleOutAttrs [] rfl rfl rfl⟩

/-! ### Lemmas about the hook loops -/

/-- The pre-hook loop emits one event per hook, numbered in declaration
order. -/
theorem runPreHooks_trace {α : Type} (hooks : List (List α → Option α)) :
    ∀ (i : Nat) (args : List α),
      (runPreHooks i hooks args).2
        = (List.range' i hooks.length).map Event.preHookRun := by
  induction hooks with
  | nil => intro i args; rfl
  | cons h hs ih =>
    intro i args
    simp only [runPreHooks, List.length_cons, List.range'_succ, List.map_cons,
      List.cons.injEq, true_and]
    exact ih (i + 1) _

/-- The pre-hook loop never empties a non-empty argument tuple. -/
theorem runPreHooks_ne_nil {α : Type} (hooks : List (List α → Option α)) :
    ∀ (i : Nat) (args : List α), args ≠ [] →
      (runPreHooks i hooks args).1 ≠ [] := by
  induction hooks with
  | nil => intro i args h; simpa [runPreHooks] using h
  | cons hk hs ih =>
    intro i args h
    simp only [runPreHooks]
    apply ih
    cases hhk : hk args with
    | some r => simp
    | none => simpa using h

/-- The post-hook loop emits one event per hook, numbered in declaration
order. -/
theorem runPostHooks_trace {α : Type} (hooks : List (α → Option α)) :
    ∀ (i : Nat) (r : α),
      (runPostHooks i hooks r).2
        = (List.range' i hooks.length).map Event.postHookRun := by
  induction hooks with
  | nil => intro i r; rfl
  | cons h hs ih =>
    intro i r
    simp only [runPostHooks, List.length_cons, List.range'_succ, List.map_cons,
      List.cons.injEq, true_and]
    exact ih (i + 1) _

/-- Pre-hook events survive the pre-hook filter. -/
theorem filter_isPre_map_pre (l : List Nat) :
    (l.map Event.preHookRun).filter isPreHookEvent = l.map Event.preHookRun := by
  induction l with
  | nil => rfl
  | cons x xs ih => simp [isPreHookEvent, ih]

/-- Post-hook events do not survive the pre-hook filter. -/
theorem filter_isPre_map_post (l : List Nat) :
    (l.map Event.postHookRun).filter isPreHookEvent = [] := by
  induction l with
  | nil => rfl
  | cons x xs ih => simp [isPreHookEvent, ih]

/-- C2: a child step (non-`None` parent) with `skip=True` and pre-hooks,
run on a non-empty argument list, executes every pre-hook in declaration
order, never calls `process`, and returns the first pre-hook-transformed
argument as further transformed by the post-hooks. -/
theorem run_skipped_child_executes_hooks {α : Type} (s : RunStep α)
    (args : List α) (hparent : s.parentIsNone = false)
    (hskip : s.skip = true) (_hpre : s.pre_hooks ≠ []) (hargs : args ≠ []) :
    ((runStep s args).trace.filter isPreHookEvent
        = (List.range s.pre_hooks.length).map Event.preHookRun)
    ∧ Event.processCall ∉ (runStep s args).trace
    ∧ ∃ a, (runPreHooks 0 s.pre_hooks args).1.head? = some a
        ∧ (runStep s args).result = .ok (runPostHooks 0 s.post_hooks a).1 := by
  obtain ⟨a, as, hcons⟩ :=
    List.exists_cons_of_ne_nil (runPreHooks_ne_nil s.pre_hooks 0 args hargs)
  have harglen : args.length ≠ 0 := by simpa using hargs
  cases hca : s.class_alias.isSome <;>
  · refine ⟨?_, ?_, a, by rw [hcons]; rfl, ?_⟩ <;>
      simp [runStep, hparent, hskip, hca, harglen, hcons,
        List.filter_append, filter_isPre_map_pre, filter_isPre_map_post,
        runPreHooks_trace, runPostHooks_trace, isPreHookEvent,
        List.range_eq_range']

/-- C5: an outermost step (no parent) with `skip=True` has its skip
forced back to `False`, logs the correction, and proceeds into the
`process` branch; the skip branch is not taken. -/
theorem run_standalone_forces_skip {α : Type} (s : RunStep α)
    (args : List α) (hparent : s.parentIsNone = true)
    (hskip : s.skip = true) :
    (runStep s args).skipFinal = false
    ∧ Event.forcedSkipFalse ∈ (runStep s args).trace
    ∧ Event.processCall ∈ (runStep s args).trace
    ∧ Event.skippedLog ∉ (runStep s args).trace := by
  cases hp : s.process (runPreHooks 0 s.pre_hooks args).1 <;>
  cases hpf : s.prefetch_references <;>
  cases hsv : s.output_file.isSome <;>
  · refine ⟨?_, ?_, ?_, ?_⟩ <;>
      simp [runStep, hparent, hskip, hp, hpf, hsv,
        runPreHooks_trace, runPostHooks_trace]

/-- C6: when the effective skip is off, a `TypeError` from `process`
whose message contains `"process() takes exactly"` is rethrown as the
dedicated "Incorrect number of arguments to step" `TypeError`; any other
exception from `process` propagates unchanged; and the base
`Step.process` always raises `NotImplementedError`. -/
theorem run_rewraps_arity_type_error {α : Type} (s : RunStep α)
    (args : List α) (e : Exc)
    (hskip : s.skip = false ∨ s.parentIsNone = true)
    (he : s.process (runPreHooks 0 s.pre_hooks args).1 = .error e) :
    ((e.kind = ExcKind.typeError
        ∧ strContains e.msg "process() takes exactly" = true) →
      (runStep s args).result
        = .error ⟨ExcKind.typeError, "Incorrect number of arguments to step"⟩)
    ∧ ((¬(e.kind = ExcKind.typeError
        ∧ strContains e.msg "process() takes exactly" = true)) →
      (runStep s args).result = .error e)
    ∧ processBase (α := α) (β := α) args
        = .error ⟨ExcKind.notImplementedError,
            "Steps have to override process()."⟩ := by
  have hskip' : (if s.parentIsNone && s.skip then false else s.skip) = false := by
    rcases hskip with h | h <;> cases hs : s.skip <;> simp_all
  refine ⟨fun hcond => ?_, fun hcond => ?_, rfl⟩ <;>
    · simp only [runStep, hskip', if_false, Bool.false_eq_true, he]
      simp [hcond]

/-- C10: a child step (non-`None` parent) with `skip=True` and no
pre-hooks, run with zero arguments, raises `IndexError` from the skip
branch's unconditional indexing of the first argument. -/
theorem run_skipped_no_args_raises {α : Type} (s : RunStep α)
    (hparent : s.parentIsNone = false) (hskip : s.skip = true)
    (hpre : s.pre_hooks = []) :
    (runStep s []).result
      = .error ⟨ExcKind.indexError, "tuple index out of range"⟩ := by
  simp [runStep, hparent, hskip, hpre, runPreHooks]

/-- Witness for C2 at a concrete skipped child step with one pre-hook and
one post-hook. -/
theorem run_skipped_child_executes_hooks_witness :
    sampleHookStep.parentIsNone = false ∧ sampleHookStep.skip = true
    ∧ sampleHookStep.pre_hooks ≠ [] ∧ ([5] : List Nat) ≠ []
    ∧ (((runStep sampleHookStep [5]).trace.filter isPreHookEvent
        = (List.range sampleHookStep.pre_hooks.length).map Event.preHookRun)
      ∧ Event.processCall ∉ (runStep sampleHookStep [5]).trace
      ∧ ∃ a, (runPreHooks 0 sampleHookStep.pre_hooks [5]).1.head? = some a
          ∧ (runStep sampleHookStep [5]).result
            = .ok (runPostHooks 0 sampleHookStep.post_hooks a).1) :=
  ⟨rfl, rfl, by simp [sampleHookStep], by simp,
    run_skipped_child_executes_hooks sampleHookStep [5] rfl rfl
      (by simp [sampleHookStep]) (by simp)⟩

/-- Witness for C5 at a concrete standalone step. -/
theorem run_standalone_forces_skip_witness :
    sampleStandaloneStep.parentIsNone = true ∧ sampleStandaloneStep.skip = true
    ∧ ((runStep sampleStandaloneStep [3]).skipFinal = false
      ∧ Event.forcedSkipFalse ∈ (runStep sampleStandaloneStep [3]).trace
      ∧ Event.processCall ∈ (runStep sampleStandaloneStep [3]).trace
      ∧ Event.skippedLog ∉ (runStep sampleStandaloneStep [3]).trace) :=
  ⟨rfl, rfl, run_standalone_forces_skip sampleStandaloneStep [3] rfl rfl⟩

/-- Witness for C6 at a concrete step whose `process` raises the
arity-mismatch `TypeError`: the run result is the rewrapped error. -/
theorem run_rewraps_arity_type_error_witness :
    (sampleArityStep.skip = false ∨ sampleArityStep.parentIsNone = true)
    ∧ sampleArityStep.process (runPreHooks 0 sampleArityStep.pre_hooks [1, 2]).1
      = .error ⟨.typeError, "process() takes exactly 1 argument (2 given)"⟩
    ∧ (runStep sampleArityStep [1, 2]).result
      = .error ⟨ExcKind.typeError, "Incorrect number of arguments to step"⟩ :=
  ⟨Or.inl rfl, rfl,
    (run_rewraps_arity_type_error sampleArityStep [1, 2]
      ⟨.typeError, "process() takes exactly 1 argument (2 given)"⟩
      (Or.inl rfl) rfl).1 ⟨rfl, by decide⟩⟩

/-- Witness for C10 at a concrete skipped child step run with no
arguments. -/
theorem run_skipped_no_args_raises_witness :
    sampleEmptySkipStep.parentIsNone = false ∧ sampleEmptySkipStep.skip = true
    ∧ sampleEmptySkipStep.pre_hooks = []
    ∧ (runStep sampleEmptySkipStep []).result
      = .error ⟨ExcKind.indexError, "tuple index out of range"⟩ :=
  ⟨rfl, rfl, rfl, run_skipped_no_args_raises sampleEmptySkipStep rfl rfl rfl⟩

/-! ### Nested step configuration (C4) -/

/-- C4 counterexample: with `steps.substep.config_file` pointing at a
file declaring `name = "other"`, `build_config` raises a plain
`ValueError` (`step.py:1420`) — not a `ConfigError` as the claim
states. -/
theorem build_config_mismatch_counterexample :
    build_config mismatchFs [] mismatchKwargs
      = .error ⟨ExcKind.valueError,
          "Step name from configuration file 'substep.cfg' does not match step name in the 'steps' argument."⟩
    ∧ ExcKind.valueError ≠ ExcKind.configError :=
  ⟨rfl, by decide⟩

/-- C4 (amended): a keyword configuration whose leading `steps.<name>`
block carries a `config_file` declaring a different `name` makes
`build_config` fail with `ValueError`, before any Step instance is
constructed. -/
theorem build_config_mismatch_raises (fs : String → Option FileCfg)
    (remote : List (String × String)) (kwargs : BuildKwargs)
    (step : String) (pars : StepPars) (rest : List (String × StepPars))
    (cf : String) (fileCfg : FileCfg) (n : String)
    (hmain : kwargs.config_file = none)
    (hsteps : kwargs.steps = (step, pars) :: rest)
    (hcf : pars.config_file = some cf)
    (hfs : fs (pyJoin "" cf) = some fileCfg)
    (hname : fileCfg.name = some n) (hne : n ≠ step) :
    build_config fs remote kwargs
      = .error ⟨ExcKind.valueError,
          "Step name from configuration file '" ++ pyJoin "" cf
            ++ "' does not match step name in the 'steps' argument."⟩
    ∧ ∀ inst, stepCallConstruct fs remote kwargs ≠ .ok inst := by
  have hstep : build_config_steps fs "" kwargs.steps
      = .error ⟨ExcKind.valueError,
          "Step name from configuration file '" ++ pyJoin "" cf
            ++ "' does not match step name in the 'steps' argument."⟩ := by
    rw [hsteps]
    simp only [build_config_steps, hcf, hfs, hname]
    rw [if_pos hne]
  have hbc : build_config fs remote kwargs
      = .error ⟨ExcKind.valueError,
          "Step name from configuration file '" ++ pyJoin "" cf
            ++ "' does not match step name in the 'steps' argument."⟩ := by
    simp only [build_config, hmain, hstep]
  refine ⟨hbc, fun inst h => ?_⟩
  rw [stepCallConstruct, hbc] at h
  exact Except.noConfusion h

/-- Witness for the amended C4 at the concrete mismatch scenario. -/
theorem build_config_mismatch_raises_witness :
    mismatchKwargs.config_file = none
    ∧ mismatchKwargs.steps = [("substep", ⟨some "substep.cfg", []⟩)]
    ∧ (⟨some "substep.cfg", []⟩ : StepPars).config_file = some "substep.cfg"
    ∧ mismatchFs (pyJoin "" "substep.cfg")
      = some ⟨some "other", none, [("par1", "1")]⟩
    ∧ (⟨some "other", none, [("par1", "1")]⟩ : FileCfg).name = some "other"
    ∧ "other" ≠ "substep"
    ∧ build_config mismatchFs [] mismatchKwargs
      = .error ⟨ExcKind.valueError,
          "Step name from configuration file '" ++ pyJoin "" "substep.cfg"
            ++ "' does not match step name in the 'steps' argument."⟩ :=
  ⟨rfl, rfl, rfl, rfl, rfl, by decide,
    (build_config_mismatch_raises mismatchFs [] mismatchKwargs
      "substep" ⟨some "substep.cfg", []⟩ [] "substep.cfg"
      ⟨some "other", none, [("par1", "1")]⟩ "other"
      rfl rfl rfl rfl rfl (by decide)).1⟩

/-! ### The reserved-key check (C8) -/

/-- No reserved built-in parameter name contains a dot. -/
theorem builtin_has_no_dot (s : String)
    (hs : s ∈ built_in_configuration_parameters) : '.' ∉ s.toList := by
  fin_cases hs <;> decide

/-- `dotJoin` on a list with at least two elements starts with the head
and a dot. -/
theorem dotJoin_cons_ne_nil (p : String) (rest : List String)
    (h : rest ≠ []) : dotJoin (p :: rest) = p ++ "." ++ dotJoin rest := by
  cases rest with
  | nil => exact absurd rfl h
  | cons q qs => rfl

/-- A dotted name built from a non-empty prefix contains a dot. -/
theorem dot_mem_dotJoin_append (parts : List String) (key : String)
    (hp : parts ≠ []) : '.' ∈ (dotJoin (parts ++ [key])).toList := by
  cases parts with
  | nil => exact absurd rfl hp
  | cons p ps =>
    rw [List.cons_append, dotJoin_cons_ne_nil p (ps ++ [key]) (by simp)]
    simp [String.toList, String.data_append]

/-- Stripping the leading `--` from a built argument name recovers the
dotted name. -/
theorem strip_leading_dashes (d : String) :
    String.mk (("--" ++ d).toList.drop 2) = d := by
  show String.mk ((("--" ++ d).data).drop 2) = d
  rw [String.data_append]
  rfl

/-- The argument name of a nested (dotted) leaf is never a reserved
built-in key. -/
theorem nested_arg_not_builtin (parts : List String) (key : String)
    (hp : parts ≠ []) :
    String.mk (("--" ++ dotJoin (parts ++ [key])).toList.drop 2)
      ∉ built_in_configuration_parameters := by
  intro hmem
  rw [strip_leading_dashes] at hmem
  exact builtin_has_no_dot _ hmem (dot_mem_dotJoin_append parts key hp)

/-- On a well-formed configspec, `build_from_spec` under a non-empty
dotted prefix always succeeds (no leaf there can collide with a reserved
top-level key, and no help-string computation can raise). -/
theorem build_from_spec_ok_of_wf :
    ∀ (N : Nat) (entries : List (String × SpecNode)), sizeOf entries ≤ N →
      ∀ (parts : List String), parts ≠ [] →
      (∀ e ∈ entries, SpecNodeWF e.2) →
      ∃ res, build_from_spec entries parts = .ok res := by
  intro N
  induction N with
  | zero =>
    intro entries hsz
    exfalso
    cases entries <;> simp_arith at hsz
  | succ N ih =>
    intro entries hsz parts hp hwf
    match entries with
    | [] => exact ⟨[], by simp [build_from_spec]⟩
    | (key, SpecNode.sub sub) :: rest =>
      have hs1 : sizeOf sub ≤ N := by
        simp only [List.cons.sizeOf_spec, Prod.mk.sizeOf_spec,
          SpecNode.sub.sizeOf_spec] at hsz
        omega
      have hs2 : sizeOf rest ≤ N := by
        simp only [List.cons.sizeOf_spec, Prod.mk.sizeOf_spec,
          SpecNode.sub.sizeOf_spec] at hsz
        omega
      obtain ⟨a, ha⟩ := ih sub hs1 (parts ++ [key]) (by simp)
        (fun e he => by
          have hh := hwf (key, SpecNode.sub sub) (List.mem_cons_self _ _)
          cases hh with
          | sub _ h => exact h e he)
      obtain ⟨b, hb⟩ := ih rest hs2 parts hp
        (fun e he => hwf e (List.mem_cons_of_mem _ he))
      exact ⟨a ++ b, by simp [build_from_spec, ha, hb]⟩
    | (key, SpecNode.leaf val comment) :: rest =>
      have hlen : 2 ≤ (pySplitOnChar val '(').length := by
        have hh := hwf (key, SpecNode.leaf val comment) (List.mem_cons_self _ _)
        cases hh with
        | leaf _ _ h => exact h
      obtain ⟨p1, hp1⟩ : ∃ x, (pySplitOnChar val '(').get? 1 = some x :=
        ⟨_, List.get?_eq_get (by omega)⟩
      have hs2 : sizeOf rest ≤ N := by
        simp only [List.cons.sizeOf_spec, Prod.mk.sizeOf_spec,
          SpecNode.leaf.sizeOf_spec] at hsz
        omega
      obtain ⟨b, hb⟩ := ih rest hs2 parts hp
        (fun e he => hwf e (List.mem_cons_of_mem _ he))
      simp only [build_from_spec, hp1, hb,
        if_neg (nested_arg_not_builtin parts key hp)]
      exact ⟨_, rfl⟩

/-- C8 counterexample: a merged configspec declaring the reserved
top-level leaf `debug` makes the command-line builder raise a plain
`ValueError` (`cmdline.py:106`) — not a `SchemaError` as the claim
states. -/
theorem build_from_spec_debug_counterexample :
    build_from_spec debugSpecEntries []
      = .error ⟨ExcKind.valueError,
          "The Step's spec is trying to override a built-in parameter '--debug'"⟩
    ∧ ExcKind.valueError ≠ ExcKind.schemaError :=
  ⟨by simp [build_from_spec, debugSpecEntries]; rfl, by decide⟩

/-- C8 (amended): a well-formed merged configspec declaring a top-level
leaf named by one of the reserved built-in keys (`debug`, `logcfg`,
`verbose`) makes the command-line builder fail with `ValueError`. -/
theorem build_from_spec_builtin_raises
    (entries : List (String × SpecNode)) (key val comment : String)
    (hwf : ∀ e ∈ entries, SpecNodeWF e.2)
    (hmem : (key, SpecNode.leaf val comment) ∈ entries)
    (hkey : key ∈ built_in_configuration_parameters) :
    ∃ msg, build_from_spec entries [] = .error ⟨ExcKind.valueError, msg⟩ := by
  induction entries with
  | nil => cases hmem
  | cons e rest ih =>
    obtain ⟨k, node⟩ := e
    have hwfrest : ∀ e ∈ rest, SpecNodeWF e.2 :=
      fun e he => hwf e (List.mem_cons_of_mem _ he)
    rcases List.mem_cons.mp hmem with heq | hmem'
    · -- the offending leaf is the head entry
      injection heq with h1 h2
      subst h1
      subst h2
      have hlen : 2 ≤ (pySplitOnChar val '(').length := by
        have hh := hwf (key, SpecNode.leaf val comment) (List.mem_cons_self _ _)
        cases hh with
        | leaf _ _ h => exact h
      obtain ⟨p1, hp1⟩ : ∃ x, (pySplitOnChar val '(').get? 1 = some x :=
        ⟨_, List.get?_eq_get (by omega)⟩
      have hcond : String.mk (("--" ++ dotJoin ([] ++ [key])).toList.drop 2)
          ∈ built_in_configuration_parameters := by
        rw [List.nil_append]
        show String.mk (("--" ++ key).toList.drop 2) ∈ _
        rw [strip_leading_dashes]
        exact hkey
      simp only [build_from_spec, hp1, if_pos hcond]
      exact ⟨_, rfl⟩
    · -- the offending leaf is further down
      obtain ⟨msg, hrest⟩ := ih hwfrest hmem'
      match node with
      | SpecNode.sub sub =>
        obtain ⟨a, ha⟩ := build_from_spec_ok_of_wf (sizeOf sub) sub le_rfl
          [k] (by simp)
          (fun e he => by
            have hh := hwf (k, SpecNode.sub sub) (List.mem_cons_self _ _)
            cases hh with
            | sub _ h => exact h e he)
        exact ⟨msg, by simp [build_from_spec, ha, hrest]⟩
      | SpecNode.leaf v c =>
        have hlen : 2 ≤ (pySplitOnChar v '(').length := by
          have hh := hwf (k, SpecNode.leaf v c) (List.mem_cons_self _ _)
          cases hh with
          | leaf _ _ h => exact h
        obtain ⟨p1, hp1⟩ : ∃ x, (pySplitOnChar v '(').get? 1 = some x :=
          ⟨_, List.get?_eq_get (by omega)⟩
        by_cases hb : String.mk (("--" ++ dotJoin ([] ++ [k])).toList.drop 2)
            ∈ built_in_configuration_parameters
        · simp only [build_from_spec, hp1, if_pos hb]
          exact ⟨_, rfl⟩
        · simp only [build_from_spec, hp1, hrest, if_neg hb]
          exact ⟨msg, rfl⟩

/-- Witness for the amended C8 at the concrete `debug` configspec. -/
theorem build_from_spec_builtin_raises_witness :
    (∀ e ∈ debugSpecEntries, SpecNodeWF e.2)
    ∧ ("debug", SpecNode.leaf "boolean(default=False)" "# debug flag")
      ∈ debugSpecEntries
    ∧ "debug" ∈ built_in_configuration_parameters
    ∧ ∃ msg, build_from_spec debugSpecEntries []
      = .error ⟨ExcKind.valueError, msg⟩ := by
  have hwf : ∀ e ∈ debugSpecEntries, SpecNodeWF e.2 := by
    intro e he
    simp only [debugSpecEntries, List.mem_singleton] at he
    subst he
    exact SpecNodeWF.leaf _ _ (by decide)
  exact ⟨hwf, by simp [debugSpecEntries], by decide,
    build_from_spec_builtin_raises debugSpecEntries "debug"
      "boolean(default=False)" "# debug flag" hwf
      (by simp [debugSpecEntries]) (by decide)⟩

/-! ### The parameter round trip (C7) -/

/-- Schema coercion is idempotent: a value that already passed the
schema coerces to itself. -/
theorem coerceLeaf_idem (t : SpecType) (v v' : PVal)
    (h : coerceLeaf t v = some v') : coerceLeaf t v' = some v' := by
  cases t <;> cases v <;> simp only [coerceLeaf] at h ⊢ <;>
    first
      | (injection h with h; subst h; rfl)
      | (split_ifs at h <;> (injection h with h; subst h) <;> rfl)
      | (obtain ⟨n, hn, rfl⟩ := Option.map_eq_some'.mp h; rfl)
      | cases h

/-- The keys `get_pars` reads are exactly the schema keys the instance
has attributes for. -/
theorem getParsLeaves_keys (attrs : String → Option PVal) :
    ∀ (spec : List (String × SpecType)) (leaves : List (String × PVal)),
      getParsLeaves attrs spec = some leaves →
      leaves.map Prod.fst
        = (spec.filter (fun kv => (attrs kv.1).isSome)).map Prod.fst := by
  intro spec
  induction spec with
  | nil =>
    intro leaves h
    injection h with h
    subst h
    rfl
  | cons kt rest ih =>
    intro leaves h
    obtain ⟨k, t⟩ := kt
    simp only [getParsLeaves] at h
    cases hak : attrs k with
    | none =>
      simp only [hak] at h
      simpa [List.filter_cons, hak] using ih leaves h
    | some v =>
      simp only [hak] at h
      cases hcv : coerceLeaf t v with
      | none => simp only [hcv] at h; exact Option.noConfusion h
      | some v' =>
        simp only [hcv] at h
        cases hrest : getParsLeaves attrs rest with
        | none => simp only [hrest] at h; exact Option.noConfusion h
        | some ls =>
          simp only [hrest] at h
          injection h with h
          subst h
          simpa [List.filter_cons, hak] using ih ls hrest

/-- Every attribute `get_pars` reads appears, coerced, in its output. -/
theorem getParsLeaves_mem_of_attr (attrs : String → Option PVal) :
    ∀ (spec : List (String × SpecType)) (leaves : List (String × PVal)),
      getParsLeaves attrs spec = some leaves →
      ∀ kv ∈ spec, ∀ v, attrs kv.1 = some v →
        ∃ v', coerceLeaf kv.2 v = some v' ∧ (kv.1, v') ∈ leaves := by
  intro spec
  induction spec with
  | nil => intro leaves _ kv hkv; cases hkv
  | cons kt rest ih =>
    intro leaves h kv hkv v hv
    obtain ⟨k, t⟩ := kt
    simp only [getParsLeaves] at h
    cases hak : attrs k with
    | none =>
      simp only [hak] at h
      rcases List.mem_cons.mp hkv with heq | hmem
      · subst heq
        rw [hv] at hak
        cases hak
      · exact ih leaves h kv hmem v hv
    | some v0 =>
      simp only [hak] at h
      cases hcv : coerceLeaf t v0 with
      | none => simp only [hcv] at h; exact Option.noConfusion h
      | some v0' =>
        simp only [hcv] at h
        cases hrest : getParsLeaves attrs rest with
        | none => simp only [hrest] at h; exact Option.noConfusion h
        | some ls =>
          simp only [hrest] at h
          injection h with h
          subst h
          rcases List.mem_cons.mp hkv with heq | hmem
          · subst heq
            rw [hv] at hak
            injection hak with hak
            subst hak
            exact ⟨v0', hcv, List.mem_cons_self _ _⟩
          · obtain ⟨v', hc, hm⟩ := ih ls hrest kv hmem v hv
            exact ⟨v', hc, List.mem_cons_of_mem _ hm⟩

/-- `applyLeaves` does not touch keys absent from the applied mapping. -/
theorem applyLeaves_not_mem (existing : List String) :
    ∀ (leaves : List (String × PVal)) (attrs : String → Option PVal)
      (q : String), q ∉ leaves.map Prod.fst →
      applyLeaves existing attrs leaves q = attrs q := by
  intro leaves
  induction leaves with
  | nil => intro attrs q _; rfl
  | cons kv rest ih =>
    intro attrs q hq
    obtain ⟨k, v⟩ := kv
    simp only [List.map_cons, List.mem_cons] at hq
    push_neg at hq
    simp only [applyLeaves]
    rw [ih _ q hq.2]
    by_cases hc : k ∈ existing ∧ k ≠ "steps" <;> simp [hc, hq.1]

/-- `applyLeaves` assigns each eligible key of a duplicate-free mapping
its value. -/
theorem applyLeaves_mem (existing : List String) :
    ∀ (leaves : List (String × PVal)) (attrs : String → Option PVal)
      (k : String) (v : PVal),
      (leaves.map Prod.fst).Nodup → (k, v) ∈ leaves →
      k ∈ existing → k ≠ "steps" →
      applyLeaves existing attrs leaves k = some v := by
  intro leaves
  induction leaves with
  | nil => intro attrs k v _ hm; cases hm
  | cons kv rest ih =>
    intro attrs k v hnd hm hk hks
    obtain ⟨k0, v0⟩ := kv
    simp only [List.map_cons, List.nodup_cons] at hnd
    rcases List.mem_cons.mp hm with heq | hmem
    · injection heq with h1 h2
      subst h1
      subst h2
      simp only [applyLeaves]
      rw [applyLeaves_not_mem existing rest _ k hnd.1]
      simp [hk, hks]
    · exact ih _ k v hnd.2 hmem hk hks

/-- `getParsLeaves` only depends on the coerced attribute values of the
schema keys: an attribute map that already stores the coerced values
reproduces the same output. -/
theorem getParsLeaves_of_pointwise (attrs attrs2 : String → Option PVal) :
    ∀ (spec : List (String × SpecType)) (leaves : List (String × PVal)),
      getParsLeaves attrs spec = some leaves →
      (∀ kv ∈ spec, attrs2 kv.1
        = (match attrs kv.1 with
            | none => none
            | some v => coerceLeaf kv.2 v)) →
      getParsLeaves attrs2 spec = some leaves := by
  intro spec
  induction spec with
  | nil => intro leaves h _; exact h
  | cons kt rest ih =>
    intro leaves h hpt
    obtain ⟨k, t⟩ := kt
    have hhead := hpt (k, t) (List.mem_cons_self _ _)
    have htail : ∀ kv ∈ rest, attrs2 kv.1
        = (match attrs kv.1 with
            | none => none
            | some v => coerceLeaf kv.2 v) :=
      fun kv hkv => hpt kv (List.mem_cons_of_mem _ hkv)
    simp only [getParsLeaves] at h ⊢
    cases hak : attrs k with
    | none =>
      simp only [hak] at h hhead
      rw [hhead]
      exact ih leaves h htail
    | some v =>
      simp only [hak] at h hhead
      cases hcv : coerceLeaf t v with
      | none => simp only [hcv] at h; exact Option.noConfusion h
      | some v' =>
        simp only [hcv] at h
        cases hrest : getParsLeaves attrs rest with
        | none => simp only [hrest] at h; exact Option.noConfusion h
        | some ls =>
          simp only [hrest] at h
          injection h with h
          rw [hhead]
          simp only [hcv, coerceLeaf_idem t v v' hcv, ih ls hrest htail, h]

/-- Writing the freshly read (already coerced) parameters back into the
instance attributes and reading them again reproduces them. -/
theorem getParsLeaves_roundtrip (spec : List (String × SpecType))
    (attrs : String → Option PVal) (leaves : List (String × PVal))
    (existing : List String)
    (hnd : (spec.map Prod.fst).Nodup)
    (hget : getParsLeaves attrs spec = some leaves)
    (hsub : ∀ k ∈ (spec.filter (fun kv => (attrs kv.1).isSome)).map Prod.fst,
      k ∈ existing)
    (hsteps : "steps" ∉ spec.map Prod.fst) :
    getParsLeaves (applyLeaves existing attrs leaves) spec = some leaves := by
  apply getParsLeaves_of_pointwise attrs _ spec leaves hget
  intro kv hkv
  cases hak : attrs kv.1 with
  | none =>
    have hkeys := getParsLeaves_keys attrs spec leaves hget
    have hnotin : kv.1 ∉ leaves.map Prod.fst := by
      rw [hkeys]
      intro hmem
      simp only [List.mem_map, List.mem_filter] at hmem
      obtain ⟨kv', ⟨_, hsome⟩, heq⟩ := hmem
      rw [heq, hak] at hsome
      cases hsome
    rw [applyLeaves_not_mem existing leaves attrs kv.1 hnotin, hak]
  | some v =>
    obtain ⟨v', hcv, hmem⟩ :=
      getParsLeaves_mem_of_attr attrs spec leaves hget kv hkv v hak
    have hndl : (leaves.map Prod.fst).Nodup := by
      rw [getParsLeaves_keys attrs spec leaves hget]
      exact ((List.filter_sublist spec).map Prod.fst).nodup hnd
    have hkex : kv.1 ∈ existing :=
      hsub kv.1 (List.mem_map_of_mem Prod.fst
        (List.mem_filter.mpr ⟨hkv, by simp [hak]⟩))
    have hkst : kv.1 ≠ "steps" := by
      intro he
      exact hsteps (he ▸ List.mem_map_of_mem Prod.fst hkv)
    rw [applyLeaves_mem existing leaves attrs kv.1 v' hndl hmem hkex hkst]
    simp only [hak]
    exact hcv.symm

/-- The `"steps"` sub-mapping of `get_pars` lists the children by name,
in order. -/
theorem get_pars_children_names :
    ∀ (cs : List (String × ParStep)) (cps : List (String × Pars)),
      get_pars_children cs = some cps →
      cps.map Prod.fst = cs.map Prod.fst := by
  intro cs
  induction cs with
  | nil =>
    intro cps h
    injection h with h
    subst h
    rfl
  | cons nc rest ih =>
    intro cps h
    obtain ⟨n, c⟩ := nc
    simp only [get_pars_children] at h
    cases hc : get_pars c with
    | none => simp only [hc] at h; exact Option.noConfusion h
    | some pc =>
      simp only [hc] at h
      cases hrest : get_pars_children rest with
      | none => simp only [hrest] at h; exact Option.noConfusion h
      | some ps =>
        simp only [hrest] at h
        injection h with h
        subst h
        simpa using ih ps hrest

/-- Inversion of `get_pars` on a step: a successful read yields the
coerced leaves and, for a pipeline, the children's parameters. -/
theorem get_pars_mk_eq_some (spec : List (String × SpecType))
    (attrs : String → Option PVal)
    (children : Option (List (String × ParStep))) (p : Pars)
    (h : get_pars (ParStep.mk spec attrs children) = some p) :
    ∃ leaves, getParsLeaves attrs spec = some leaves ∧
      ((children = none ∧ p = Pars.mk leaves none) ∨
        (∃ cs cps, children = some cs ∧ get_pars_children cs = some cps
          ∧ p = Pars.mk leaves (some cps))) := by
  rw [get_pars.eq_1] at h
  revert h
  cases hleaves : getParsLeaves attrs spec with
  | none => intro h; exact Option.noConfusion h
  | some leaves =>
    cases children with
    | none =>
      intro h
      dsimp only at h
      exact ⟨leaves, rfl, Or.inl ⟨rfl, (Option.some.inj h).symm⟩⟩
    | some cs =>
      dsimp only
      cases hcps : get_pars_children cs with
      | none => intro h; dsimp only at h; exact Option.noConfusion h
      | some cps =>
        intro h
        dsimp only at h
        exact ⟨leaves, rfl, Or.inr ⟨cs, cps, rfl, hcps,
          (Option.some.inj h).symm⟩⟩

/-- The parameter round trip, by strong induction on the step's size:
updating a well-formed step with its own freshly read parameters leaves
`get_pars` unchanged. -/
theorem get_pars_update_pars_aux :
    ∀ (N : Nat) (s : ParStep), sizeOf s ≤ N → ∀ (p : Pars), ParStepWF s →
      get_pars s = some p → get_pars (update_pars s p) = some p := by
  intro N
  induction N using Nat.strong_induction_on with
  | _ N ih =>
  intro s hsz p hwf hget
  obtain ⟨spec, attrs, children⟩ := s
  have hex : ∀ k ∈ (spec.filter
      (fun kv => (attrs kv.1).isSome)).map Prod.fst,
      k ∈ parsKeys (ParStep.mk spec attrs children) := by
    intro k hk
    simp only [parsKeys]
    exact List.mem_append_left _ hk
  obtain ⟨leaves, hleaves, hcase⟩ :=
    get_pars_mk_eq_some spec attrs children p hget
  rcases hcase with ⟨hcn, hp⟩ | ⟨cs, cps, hcs, hcps, hp⟩
  · subst hcn
    subst hp
    cases hwf with
    | plain _ _ hnd hsteps =>
    have hround := getParsLeaves_roundtrip spec attrs leaves
      (parsKeys (ParStep.mk spec attrs none)) hnd hleaves hex hsteps
    have hupd : update_pars (ParStep.mk spec attrs none) (Pars.mk leaves none)
        = ParStep.mk spec
            (applyLeaves (parsKeys (ParStep.mk spec attrs none)) attrs leaves)
            none := by
      simp only [update_pars]
    rw [hupd, get_pars.eq_1, hround]
  · subst hcs
    subst hp
    cases hwf with
    | pipeline _ _ _ hnd hsteps hcnd hcwf =>
    have hlt : ∀ c ∈ cs, sizeOf c.2 < N := by
      intro c hc
      have h1 : sizeOf c < sizeOf cs := List.sizeOf_lt_of_mem hc
      obtain ⟨n, cc⟩ := c
      have h2 : sizeOf cc < sizeOf (n, cc) := by
        simp only [Prod.mk.sizeOf_spec]
        omega
      have h3 : sizeOf cs < sizeOf (ParStep.mk spec attrs (some cs)) := by
        simp only [ParStep.mk.sizeOf_spec, Option.some.sizeOf_spec]
        omega
      simp only at h2 ⊢
      omega
    have hchild : ∀ (cs' : List (String × ParStep)) (cps' : List (String × Pars)),
        (∀ c ∈ cs', sizeOf c.2 < N) → (∀ c ∈ cs', ParStepWF c.2) →
        (cs'.map Prod.fst).Nodup →
        get_pars_children cs' = some cps' →
        (∀ n ∈ cs'.map Prod.fst, List.lookup n cps = List.lookup n cps') →
        get_pars_children (update_children cs' cps) = some cps' := by
      intro cs'
      induction cs' with
      | nil =>
        intro cps' _ _ _ hg _
        injection hg with hg
        subst hg
        rfl
      | cons nc rest ihc =>
        intro cps' hsz' hwf' hnd' hg hlook
        obtain ⟨n, c⟩ := nc
        simp only [get_pars_children] at hg
        cases hgc : get_pars c with
        | none => simp only [hgc] at hg; exact Option.noConfusion hg
        | some pc =>
        simp only [hgc] at hg
        cases hgrest : get_pars_children rest with
        | none => simp only [hgrest] at hg; exact Option.noConfusion hg
        | some ps =>
        simp only [hgrest] at hg
        injection hg with hg
        subst hg
        have hlookn : List.lookup n cps = some pc := by
          rw [hlook n (by simp)]
          simp [List.lookup]
        have hupd : get_pars (update_pars c pc) = some pc :=
          ih (sizeOf c) (hsz' (n, c) (List.mem_cons_self _ _)) c le_rfl pc
            (hwf' (n, c) (List.mem_cons_self _ _)) hgc
        simp only [List.map_cons, List.nodup_cons] at hnd'
        have hrest' : get_pars_children (update_children rest cps) = some ps := by
          apply ihc ps
            (fun c hc => hsz' c (List.mem_cons_of_mem _ hc))
            (fun c hc => hwf' c (List.mem_cons_of_mem _ hc))
            hnd'.2 hgrest
          intro n2 hn2
          rw [hlook n2 (List.mem_cons_of_mem _ hn2)]
          have hne : n2 ≠ n := fun he => hnd'.1 (he ▸ hn2)
          have hbeq : (n2 == n) = false := beq_eq_false_iff_ne.mpr hne
          simp [List.lookup, hbeq]
        simp only [update_children, hlookn, get_pars_children, hupd, hrest']
    have hround := getParsLeaves_roundtrip spec attrs leaves
      (parsKeys (ParStep.mk spec attrs (some cs))) hnd hleaves hex hsteps
    have hchildren := hchild cs cps hlt hcwf hcnd hcps (fun _ _ => rfl)
    have hupd : update_pars (ParStep.mk spec attrs (some cs))
        (Pars.mk leaves (some cps))
        = ParStep.mk spec
            (applyLeaves (parsKeys (ParStep.mk spec attrs (some cs)))
              attrs leaves)
            (some (update_children cs cps)) := by
      simp only [update_pars]
    rw [hupd, get_pars.eq_1, hround]
    dsimp only
    rw [hchildren]

/-- C7: calling `update_pars` with the mapping returned by `get_pars`
leaves the step's effective parameters unchanged — `get_pars` after
`update_pars (get_pars ())` returns the same mapping, including the
recursive application to nested sub-steps via the `"steps"` key. -/
theorem update_pars_get_pars_roundtrip (s : ParStep) (p : Pars)
    (hwf : ParStepWF s) (hget : get_pars s = some p) :
    get_pars (update_pars s p) = some p :=
  get_pars_update_pars_aux (sizeOf s) s le_rfl p hwf hget

/-- Witness for C7 at a concrete pipeline holding one child step. -/
theorem update_pars_get_pars_roundtrip_witness :
    ParStepWF sampleRootPars
    ∧ ∃ p, get_pars sampleRootPars = some p
        ∧ get_pars (update_pars sampleRootPars p) = some p := by
  have hwf : ParStepWF sampleRootPars := by
    refine ParStepWF.pipeline _ _ _ (by decide) (by decide) (by decide) ?_
    intro c hc
    simp only [sampleRootPars, List.mem_singleton] at hc
    subst hc
    exact ParStepWF.plain _ _ (by decide) (by decide)
  obtain ⟨p, hp⟩ : ∃ p, get_pars sampleRootPars = some p := by
    simp only [sampleRootPars, sampleChildPars, get_pars, get_pars_children,
      getParsLeaves, coerceLeaf]
    exact ⟨_, rfl⟩
  exact ⟨hwf, p, hp, update_pars_get_pars_roundtrip sampleRootPars p hwf hp⟩
